/-
Verification of the natural-language specification of the `code-library`
repository (Rust snippet collection) against a shallow Lean embedding of its
snippets.  Each snippet's functions are translated from `src/Rust/snippets/`;
external effects (the file system, the network, thread schedules, the
websocket peer) are explicit parameters of the embedded functions.  Strings
are modelled as `List Char` (Rust strings are sequences of Unicode scalar
values, as is `Char` here), and machine integers as `Int`, with two's
complement wrapping written out where overflow is reachable.
-/
import Mathlib

/-! ## File-system model

The snippets `read_text_file.rs`, `write_text_file.rs`, `read_json_file.rs`
and `thiserror_custom_error.rs` touch the file system only through
open/read/write of whole files, so a file system is an association list from
paths to text contents (first binding wins, as an overwrite pushes a new
binding).  Text content is the decoded character sequence of the file. -/
def FileSys : Type := List (String × List Char)

/-- Look a path up in the file-system model (first binding wins). -/
def FileSys.find : FileSys → String → Option (List Char)
  | [], _ => none
  | (q, c) :: fs, p => if q = p then some c else FileSys.find fs p

/-- The one `io::Error` kind these snippets can hit in the model: the opened
path has no file.  (`File::open` / `fs::read_to_string` on a missing path.) -/
inductive IoErrorKind : Type where
  | notFound
deriving DecidableEq, Repr

/-! ## `read_text_file.rs`

`read_text_file` opens the file and collects `BufReader::lines()`.  Rust's
`lines()` yields the text split at each `'\n'`; a line that was terminated by
`'\n'` additionally loses one trailing `'\r'` (CRLF), a final unterminated
segment is yielded as-is, and the empty segment after a trailing newline is
not yielded. -/
/-- Split at every `'\n'`, keeping all segments (`k` newlines give `k + 1`
segments, so the result is never `[]`). -/
def splitNl : List Char → List (List Char)
  | [] => [[]]
  | '\n' :: cs => [] :: splitNl cs
  | c :: cs =>
    match splitNl cs with
    | [] => [[c]]
    | l :: ls => (c :: l) :: ls

/-- Remove one trailing `'\r'`, if any: the CRLF half of `lines()`. -/
def chopCR (l : List Char) : List Char :=
  match l.getLast? with
  | some '\r' => l.dropLast
  | _ => l

/-- Turn the segments of `splitNl` into the lines `BufRead::lines` yields:
every segment but the last was `'\n'`-terminated (so drops a trailing
`'\r'`); the last segment is kept as-is, unless it is empty. -/
def rustLinesOf : List (List Char) → List (List Char)
  | [] => []
  | [s] => if s = [] then [] else [s]
  | s :: rest => chopCR s :: rustLinesOf rest

/-- The lines of a file content, as `BufReader::lines().collect()` sees them. -/
def rustLines (content : List Char) : List (List Char) :=
  rustLinesOf (splitNl content)

/-- `read_text_file` from `read_text_file.rs`: open the file, collect its
lines; surface the `io::Error` of a missing file. -/
def read_text_file (fs : FileSys) (filepath : String) :
    Except IoErrorKind (List (List Char)) :=
  match FileSys.find fs filepath with
  | none => .error .notFound
  | some content => .ok (rustLines content)

/-! ## `write_text_file.rs` -/
/-- Each line followed by `'\n'`, concatenated: what the `writeln!` loop of
`write_text_file` emits. -/
def joinLines : List (List Char) → List Char
  | [] => []
  | l :: ls => l ++ '\n' :: joinLines ls

/-- `write_text_file` from `write_text_file.rs`: truncate when `overwrite`,
else append (creating the file either way), then write each line followed by
a newline.  Writes cannot fail in the model, matching the happy path of the
returned `io::Result`. -/
def write_text_file (fs : FileSys) (filepath : String)
    (lines : List (List Char)) (overwrite : Bool) : FileSys :=
  let old := match FileSys.find fs filepath with
    | some c => c
    | none => []
  let base := if overwrite then [] else old
  (filepath, base ++ joinLines lines) :: fs

/-! ## `multithreading_basic.rs`, `shared_mutable_state`

The function spawns 10 threads; each locks the shared `Mutex<i32>` counter,
increments it, and releases the lock; the main thread joins all 10 handles
and only then reads the counter.  Because the whole body of a worker is one
critical section, mutual exclusion makes each worker a single atomic step,
and an execution is the order in which the workers win the lock.  Joining
every handle means every worker's step is in the schedule. -/
/-- One worker of `shared_mutable_state`: holding the lock, `*num += 1`. -/
def incrementWorker (counter : Int) (_tid : Fin 10) : Int := counter + 1

/-- The counter value `shared_mutable_state` reads after joining all threads,
given the order in which the 10 workers entered their critical sections. -/
def shared_mutable_state (schedule : List (Fin 10)) : Int :=
  schedule.foldl incrementWorker 0

/-! ## `rayon_parallel_iteration.rs`

`sum_of_squares_sequential` folds `x * x` over the slice left to right;
`sum_of_squares_parallel` lets Rayon split the slice into contiguous chunks,
fold each chunk, and combine the partial sums pairwise.  `i64` arithmetic is
two's complement with wrap-around on overflow (Rust release semantics; both
functions apply the very same operations, so they wrap identically). -/
/-- Two's-complement reduction of an unbounded integer into `i64`:
`2 ^ 63 = 9223372036854775808`, `2 ^ 64 = 18446744073709551616`. -/
def wrap64 (z : Int) : Int :=
  (z + 9223372036854775808) % 18446744073709551616 - 9223372036854775808

/-- `i64` addition. -/
def i64Add (a b : Int) : Int := wrap64 (a + b)

/-- `i64` squaring, the `map(|&x| x * x)` step. -/
def i64Sq (x : Int) : Int := wrap64 (x * x)

/-- `sum_of_squares_sequential`: `numbers.iter().map(|&x| x * x).sum()`. -/
def sum_of_squares_sequential (numbers : List Int) : Int :=
  numbers.foldl (fun acc x => i64Add acc (i64Sq x)) 0

/-- A Rayon work split: the slice cut into contiguous chunks, with the
pairwise combination order of the partial results recorded as a tree. -/
inductive ChunkTree : Type where
  | piece (chunk : List Int)
  | node (left right : ChunkTree)

/-- The slice a split came from, left to right. -/
def ChunkTree.flatten : ChunkTree → List Int
  | .piece c => c
  | .node l r => l.flatten ++ r.flatten

/-- `sum_of_squares_parallel`: each chunk is folded sequentially and the
partial sums are combined with the same `i64` addition. -/
def sum_of_squares_parallel : ChunkTree → Int
  | .piece c => sum_of_squares_sequential c
  | .node l r => i64Add (sum_of_squares_parallel l) (sum_of_squares_parallel r)

/-! ## `websocket_client_tungstenite.rs`

`run_websocket_client` connects, sends one `Text` greeting, then loops on
`read.next()`: `Text` containing the greeting or `Close` breaks the loop, a
receive error breaks the loop, `Ping(data)` is answered by sending
`Pong(data)` before the next `read.next()`, and everything else is only
printed.  The model records the loop as a trace of receive and send events
over the list of outcomes the stream yields; sends succeed in the model (the
sink is not the claimed failure source). -/
inductive WsMsg : Type where
  | text (s : List Char)
  | binary (b : List Nat)
  | ping (d : List Nat)
  | pong (d : List Nat)
  | close
deriving DecidableEq

inductive WsEvent : Type where
  | received (m : WsMsg)
  | sent (m : WsMsg)
  | recvFailed
deriving DecidableEq

/-- Decide `needle` is a prefix of `hay` (model of `str` slice comparison). -/
def listPrefixOf : List Char → List Char → Bool
  | [], _ => true
  | _ :: _, [] => false
  | a :: as, b :: bs => a = b && listPrefixOf as bs

/-- Decide `needle` occurs in `hay`: `str::contains` of the snippet. -/
def listContains (needle : List Char) : List Char → Bool
  | [] => needle.isEmpty
  | c :: rest => listPrefixOf needle (c :: rest) || listContains needle rest

/-- The greeting `run_websocket_client` sends first. -/
def wsGreeting : List Char := "Hello, WebSocket from Rust!".data

/-- The receive loop of `run_websocket_client`, as the event trace it
produces on a given list of stream outcomes (`Except.error` is a transport
error from `read.next()`). -/
def wsLoopTrace : List (Except Unit WsMsg) → List WsEvent
  | [] => []
  | .error _ :: _ => [.recvFailed]
  | .ok m :: rest =>
    match m with
    | .text s =>
      if listContains wsGreeting s then [.received (.text s)]
      else .received (.text s) :: wsLoopTrace rest
    | .binary b => .received (.binary b) :: wsLoopTrace rest
    | .ping d => .received (.ping d) :: .sent (.pong d) :: wsLoopTrace rest
    | .pong d => .received (.pong d) :: wsLoopTrace rest
    | .close => [.received .close]

/-- `run_websocket_client`: the full event trace of one run over the given
stream outcomes — the greeting is sent, then the receive loop runs. -/
def run_websocket_client (incoming : List (Except Unit WsMsg)) : List WsEvent :=
  .sent (.text wsGreeting) :: wsLoopTrace incoming

/-- The `url::ParseError` of `Url::parse`, carried as an abstract kind. -/
inductive UrlParseError : Type where
  | invalid
deriving DecidableEq, Repr

/-- The connection error of `connect_async`, with the text its `Display`
implementation renders (what `format!("{}", e)` interpolates). -/
structure TungsteniteError : Type where
  display : List Char

/-- What the `Box<dyn Error + Send + Sync>` returned by
`run_websocket_client` holds when the connect phase fails: the URL library's
own parse error, boxed unchanged by `?`, or the `String` built by
`map_err(|e| format!("Failed to connect: {}", e))`, which discards the
connection library's error value and type. -/
inductive WsClientError : Type where
  | urlParse (e : UrlParseError)
  | message (s : List Char)
deriving DecidableEq

/-- The connect phase of `run_websocket_client`
(`websocket_client_tungstenite.rs` lines 20-28): `Url::parse(ws_url)?`
surfaces the URL library's error itself, then `connect_async(url)` has its
error replaced by the formatted string before `?` propagates it.  The URL
parser and the network are parameters; `Conn` stands for the connected
websocket stream. -/
def ws_connect_phase {Conn : Type} (parseUrl : String → Except UrlParseError (List Char))
    (connect : List Char → Except TungsteniteError Conn) (ws_url : String) :
    Except WsClientError Conn :=
  match parseUrl ws_url with
  | .error e => .error (.urlParse e)
  | .ok url =>
    match connect url with
    | .error e => .error (.message ("Failed to connect: ".data ++ e.display))
    | .ok conn => .ok conn

/-! ## Decimal digits

Shared between the model of `str::parse::<i32>` (`thiserror_custom_error.rs`)
and the serde_json model below: reading a run of ascii digits, its numeric
value, and rendering a number back to its decimal characters. -/
/-- Numeric value of one ascii digit character. -/
def digitVal (c : Char) : Nat := c.toNat - 48

/-- Value of a run of ascii digits, most significant first. -/
def digitRunVal (ds : List Char) : Nat :=
  ds.foldl (fun a c => 10 * a + digitVal c) 0

/-- The longest digit prefix of the input, and what follows it. -/
def grabDigits : List Char → List Char × List Char
  | [] => ([], [])
  | c :: cs =>
    if c.isDigit then
      match grabDigits cs with
      | (ds, r) => (c :: ds, r)
    else ([], c :: cs)

/-- Decimal characters of a natural number, most significant first. -/
def natChars (n : Nat) : List Char :=
  if n < 10 then [Char.ofNat (48 + n)]
  else natChars (n / 10) ++ [Char.ofNat (48 + n % 10)]
termination_by n
decreasing_by omega

/-- Decimal characters of an integer: optional minus sign, then digits. -/
def intChars (n : Int) : List Char :=
  if n < 0 then '-' :: natChars n.natAbs else natChars n.natAbs

/-! ## `thiserror_custom_error.rs`

`DataProcessingError` is the repository-defined error enum built with
`thiserror`; `process_data` opens a file, parses the input as `i32`, and
applies two checks of its own on the parsed number. -/
/-- The error kinds of `<i32 as FromStr>::from_str`. -/
inductive ParseIntErrorKind : Type where
  | empty
  | invalidDigit
  | posOverflow
  | negOverflow
deriving DecidableEq, Repr

/-- `str::parse::<i32>`: an optional single `+`/`-` sign, then one or more
ascii digits and nothing else; the value must fit in `i32`. -/
def parse_i32 (s : List Char) : Except ParseIntErrorKind Int :=
  match s with
  | [] => .error .empty
  | _ =>
    match (match s with
           | '+' :: r => ((1 : Int), r)
           | '-' :: r => ((-1 : Int), r)
           | _ => ((1 : Int), s)) with
    | (sign, ds) =>
      if ds = [] then .error .invalidDigit
      else if ds.all Char.isDigit then
        if sign = 1 then
          if digitRunVal ds ≤ 2147483647 then .ok (digitRunVal ds : Int)
          else .error .posOverflow
        else
          if digitRunVal ds ≤ 2147483648 then .ok (-(digitRunVal ds : Int))
          else .error .negOverflow
      else .error .invalidDigit

/-- The repository-defined error enum of `thiserror_custom_error.rs`:
`Io` and `Parse` wrap the library errors (the `#[from]` conversions), while
`InvalidData` and `ConfigError` are the snippet's own error conditions. -/
inductive DataProcessingError : Type where
  | Io (e : IoErrorKind)
  | Parse (source : ParseIntErrorKind)
  | InvalidData (msg : List Char)
  | ConfigError (details : List Char)
deriving DecidableEq

/-- The `format!("Negative numbers ({}) are not allowed", number)` message. -/
def negativeMsg (number : Int) : List Char :=
  "Negative numbers (".data ++ intChars number ++ ") are not allowed".data

/-- The `ConfigError` details string of `process_data`. -/
def configDetails : List Char := "Value exceeds configured maximum threshold".data

/-- `process_data`: open `file_path` (`?` wraps the `io::Error` via `From`),
parse `input_str` as `i32` (`?` wraps the `ParseIntError`), then reject
negative numbers with `InvalidData` and numbers above 1000 with
`ConfigError`; otherwise return twice the number. -/
def process_data (fs : FileSys) (input_str : List Char) (file_path : String) :
    Except DataProcessingError Int :=
  match FileSys.find fs file_path with
  | none => .error (.Io .notFound)
  | some _ =>
    match parse_i32 input_str with
    | .error e => .error (.Parse e)
    | .ok number =>
      if number < 0 then .error (.InvalidData (negativeMsg number))
      else if number > 1000 then .error (.ConfigError configDetails)
      else .ok (number * 2)

/-! ## serde_json model

`json_serialization.rs` and `read_json_file.rs` delegate to `serde_json`.
The model below embeds the part of `serde_json` those snippets exercise:
pretty serialization of the `Point` struct and parsing of JSON text built
from null, booleans, integer numbers, strings, arrays and objects.  (The
full library additionally parses floating-point numbers and combines
`\uXXXX` surrogate pairs; neither is producible by the serializer of
`Point`, and raw control characters in strings are rejected as in the
library.)  A parsed document is a `serde_json::Value`: -/
inductive JsonValue : Type where
  | null
  | bool (b : Bool)
  | num (n : Int)
  | str (s : List Char)
  | arr (items : List JsonValue)
  | obj (members : List (List Char × JsonValue))

/-- JSON whitespace: space, tab, line feed, carriage return. -/
def isWsChar (c : Char) : Bool :=
  c = ' ' || c = '\t' || c = '\n' || c = '\r'

/-- Drop leading JSON whitespace. -/
def dropWs : List Char → List Char
  | [] => []
  | c :: cs => if isWsChar c then dropWs cs else c :: cs

/-- Lowercase hex digit character of `d < 16`. -/
def hexChar (d : Nat) : Char :=
  if d < 10 then Char.ofNat (48 + d) else Char.ofNat (87 + d)

/-- One string character, escaped as `serde_json` writes it: `"` and `\`
and the five short control escapes by name, any other control character as
`\u00XX`, everything else verbatim. -/
def escChar (c : Char) : List Char :=
  if c = '"' then ['\\', '"']
  else if c = '\\' then ['\\', '\\']
  else if c = Char.ofNat 8 then ['\\', 'b']
  else if c = '\t' then ['\\', 't']
  else if c = '\n' then ['\\', 'n']
  else if c = Char.ofNat 12 then ['\\', 'f']
  else if c = '\r' then ['\\', 'r']
  else if c.toNat < 32 then
    ['\\', 'u', '0', '0', hexChar (c.toNat / 16), hexChar (c.toNat % 16)]
  else [c]

/-- A whole string body, escaped. -/
def escString : List Char → List Char
  | [] => []
  | c :: cs => escChar c ++ escString cs

/-- A rendered JSON string: quote, escaped body, quote. -/
def renderStr (s : List Char) : List Char := '"' :: escString s ++ ['"']

/-- Value of one hex digit character, either case. -/
def hexDigitVal (c : Char) : Option Nat :=
  if c.isDigit then some (c.toNat - 48)
  else if 'a' ≤ c ∧ c ≤ 'f' then some (c.toNat - 87)
  else if 'A' ≤ c ∧ c ≤ 'F' then some (c.toNat - 55)
  else none

/-- Value of a 4-hex-digit escape payload. -/
def hexQuad (a b c d : Char) : Option Nat :=
  match hexDigitVal a, hexDigitVal b, hexDigitVal c, hexDigitVal d with
  | some va, some vb, some vc, some vd =>
    some (((va * 16 + vb) * 16 + vc) * 16 + vd)
  | _, _, _, _ => none

/-- The single-character escapes the parser accepts after a backslash. -/
def simpleUnescape (e : Char) : Option Char :=
  if e = '"' then some '"'
  else if e = '\\' then some '\\'
  else if e = '/' then some '/'
  else if e = 'b' then some (Char.ofNat 8)
  else if e = 'f' then some (Char.ofNat 12)
  else if e = 'n' then some '\n'
  else if e = 'r' then some '\r'
  else if e = 't' then some '\t'
  else none

/-- Parse a string body after its opening quote, up to and including the
closing quote: escapes are decoded (a `\uXXXX` escape must denote a Unicode
scalar value), raw control characters are rejected, and running out of input
inside the string is an error. -/
def strBody : List Char → Option (List Char × List Char)
  | [] => none
  | '"' :: rest => some ([], rest)
  | '\\' :: 'u' :: h1 :: h2 :: h3 :: h4 :: rest =>
    match hexQuad h1 h2 h3 h4 with
    | none => none
    | some v =>
      if v < 55296 ∨ (57343 < v ∧ v < 1114112) then
        match strBody rest with
        | some (s, r) => some (Char.ofNat v :: s, r)
        | none => none
      else none
  | '\\' :: e :: rest =>
    match simpleUnescape e with
    | none => none
    | some c =>
      match strBody rest with
      | some (s, r) => some (c :: s, r)
      | none => none
  | c :: rest =>
    if c.toNat < 32 then none
    else
      match strBody rest with
      | some (s, r) => some (c :: s, r)
      | none => none

/-- Parse an unsigned integer token: a nonempty digit run without a redundant
leading zero. -/
def natToken (cs : List Char) : Option (Nat × List Char) :=
  match grabDigits cs with
  | ([], _) => none
  | (d :: ds, r) =>
    if d = '0' ∧ ds ≠ [] then none
    else some (digitRunVal (d :: ds), r)

/-- Parse an integer number token, with an optional leading minus sign. -/
def numToken (cs : List Char) : Option (JsonValue × List Char) :=
  match cs with
  | '-' :: r =>
    match natToken r with
    | some (n, r2) => some (.num (-(n : Int)), r2)
    | none => none
  | _ =>
    match natToken cs with
    | some (n, r2) => some (.num (n : Int), r2)
    | none => none

/-- Dispatch on the first character of a JSON value (after whitespace):
keyword, string, array, object or number.  `pe`/`pm` are the element and
member parsers at the next fuel step. -/
def parseValStep (pe : List Char → Option (List JsonValue × List Char))
    (pm : List Char → Option (List (List Char × JsonValue) × List Char))
    (c : Char) (r : List Char) : Option (JsonValue × List Char) :=
  if c = 'n' then
    match r with
    | 'u' :: 'l' :: 'l' :: r2 => some (.null, r2)
    | _ => none
  else if c = 't' then
    match r with
    | 'r' :: 'u' :: 'e' :: r2 => some (.bool true, r2)
    | _ => none
  else if c = 'f' then
    match r with
    | 'a' :: 'l' :: 's' :: 'e' :: r2 => some (.bool false, r2)
    | _ => none
  else if c = '"' then
    match strBody r with
    | some sr => some (.str sr.1, sr.2)
    | none => none
  else if c = '[' then
    match dropWs r with
    | [] => none
    | d :: r2 =>
      if d = ']' then some (.arr [], r2)
      else
        match pe r with
        | some er => some (.arr er.1, er.2)
        | none => none
  else if c = '{' then
    match dropWs r with
    | [] => none
    | d :: r2 =>
      if d = '}' then some (.obj [], r2)
      else
        match pm r with
        | some mr => some (.obj mr.1, mr.2)
        | none => none
  else if c = '-' ∨ c.isDigit then numToken (c :: r)
  else none

/-- After one parsed array element `vr`: a comma continues with `pe`, a `]`
closes the array. -/
def parseElemsStep (pe : List Char → Option (List JsonValue × List Char))
    (v : JsonValue) (r : List Char) : Option (List JsonValue × List Char) :=
  match dropWs r with
  | [] => none
  | d :: r2 =>
    if d = ',' then
      match pe r2 with
      | some er => some (v :: er.1, er.2)
      | none => none
    else if d = ']' then some ([v], r2)
    else none

/-- After a member's key and value: a comma continues with `pm`, a `}`
closes the object. -/
def parseMemberRest (pm : List Char → Option (List (List Char × JsonValue) × List Char))
    (k : List Char) (v : JsonValue) (r4 : List Char) :
    Option (List (List Char × JsonValue) × List Char) :=
  match dropWs r4 with
  | [] => none
  | e :: r5 =>
    if e = ',' then
      match pm r5 with
      | some mr => some ((k, v) :: mr.1, mr.2)
      | none => none
    else if e = '}' then some ([(k, v)], r5)
    else none

/-- After a member's parsed key `k`: a colon, then the value, then the rest
of the object. -/
def parseMembersStep (pv : List Char → Option (JsonValue × List Char))
    (pm : List Char → Option (List (List Char × JsonValue) × List Char))
    (k : List Char) (r2 : List Char) : Option (List (List Char × JsonValue) × List Char) :=
  match dropWs r2 with
  | [] => none
  | d :: r3 =>
    if d = ':' then
      match pv r3 with
      | none => none
      | some vr => parseMemberRest pm k vr.1 vr.2
    else none

mutual

/-- Parse one JSON value after optional whitespace.  The `fuel` argument only
forces termination; callers pass more fuel than the input length, which the
round-trip lemmas show is always enough. -/
def parseVal : Nat → List Char → Option (JsonValue × List Char)
  | 0, _ => none
  | fuel + 1, cs =>
    match dropWs cs with
    | [] => none
    | c :: r => parseValStep (parseElems fuel) (parseMembers fuel) c r

/-- Parse one or more comma-separated array elements and the closing `]`. -/
def parseElems : Nat → List Char → Option (List JsonValue × List Char)
  | 0, _ => none
  | fuel + 1, cs =>
    match parseVal fuel cs with
    | none => none
    | some vr => parseElemsStep (parseElems fuel) vr.1 vr.2

/-- Parse one or more comma-separated `"key": value` members and the
closing `}`. -/
def parseMembers : Nat → List Char → Option (List (List Char × JsonValue) × List Char)
  | 0, _ => none
  | fuel + 1, cs =>
    match dropWs cs with
    | [] => none
    | c :: r =>
      if c = '"' then
        match strBody r with
        | none => none
        | some kr => parseMembersStep (parseVal fuel) (parseMembers fuel) kr.1 kr.2
      else none

end

/-- `serde_json::from_str`: parse one document and require only whitespace
after it. -/
def json_from_str (cs : List Char) : Option JsonValue :=
  match parseVal (cs.length + 1) cs with
  | some (j, r) => if dropWs r = [] then some j else none
  | none => none

/-! ## `json_serialization.rs` -/
/-- The struct of `json_serialization.rs`: `x` and `y` are `i32` (so carry
the invariant of lying in the `i32` range), `label` a string, `tags` a list
of strings. -/
structure Point : Type where
  x : Int
  y : Int
  label : List Char
  tags : List (List Char)

/-- `serde_json`'s pretty-printer indentation: two spaces per level. -/
def indentChars (level : Nat) : List Char := List.replicate (2 * level) ' '

/-- The members of the `"tags"` array after the first, each on its own
line at indent level 2, then the closing bracket at level 1. -/
def renderTagsTail : List (List Char) → List Char
  | [] => '\n' :: indentChars 1 ++ [']']
  | t :: ts => ',' :: '\n' :: indentChars 2 ++ renderStr t ++ renderTagsTail ts

/-- The `"tags"` array as the pretty-printer writes it: `[]` when empty,
else one string per line. -/
def renderTags : List (List Char) → List Char
  | [] => ['[', ']']
  | t :: ts => '[' :: '\n' :: indentChars 2 ++ renderStr t ++ renderTagsTail ts

/-- The pretty JSON text `serde_json::to_string_pretty` produces for a
`Point`: one member per line at indent level 1, in field order, keys
escaped (the four key names escape to themselves). -/
def render_point (p : Point) : List Char :=
  '{' :: '\n' :: indentChars 1
    ++ '"' :: 'x' :: '"' :: ':' :: ' ' :: intChars p.x
    ++ ',' :: '\n' :: indentChars 1
    ++ '"' :: 'y' :: '"' :: ':' :: ' ' :: intChars p.y
    ++ ',' :: '\n' :: indentChars 1
    ++ '"' :: 'l' :: 'a' :: 'b' :: 'e' :: 'l' :: '"' :: ':' :: ' ' :: renderStr p.label
    ++ ',' :: '\n' :: indentChars 1
    ++ '"' :: 't' :: 'a' :: 'g' :: 's' :: '"' :: ':' :: ' ' :: renderTags p.tags
    ++ '\n' :: ['}']

/-- The `serde_json::Value` tree of a `Point`, for the round-trip statement. -/
def json_of_point (p : Point) : JsonValue :=
  .obj [(['x'], .num p.x), (['y'], .num p.y),
    (['l', 'a', 'b', 'e', 'l'], .str p.label),
    (['t', 'a', 'g', 's'], .arr (p.tags.map .str))]

/-- The error type `serde_json::Result` carries, as these snippets meet it:
an I/O error converted by `Error::io`, a malformed document, or a document of
the wrong shape for the target type. -/
inductive JsonError : Type where
  | Io (e : IoErrorKind)
  | malformed
  | badShape
deriving DecidableEq, Repr

/-- `serialize_struct_to_json_string` at the `Point` instantiation:
`serde_json::to_string_pretty` cannot fail on a struct of integers, strings
and string lists, so the result is always `Ok` of the pretty text. -/
def serialize_struct_to_json_string (p : Point) : Except JsonError (List Char) :=
  .ok (render_point p)

/-- Deserialization of an `i32` field: an integer number in `i32` range. -/
def i32OfJson : JsonValue → Option Int
  | .num n => if -2147483648 ≤ n ∧ n ≤ 2147483647 then some n else none
  | _ => none

/-- Deserialization of a `String` field. -/
def strOfJson : JsonValue → Option (List Char)
  | .str s => some s
  | _ => none

/-- Deserialization of a `Vec<String>` element list. -/
def strListOfJson : List JsonValue → Option (List (List Char))
  | [] => some []
  | .str s :: js =>
    match strListOfJson js with
    | some ss => some (s :: ss)
    | none => none
  | _ => none

/-- Deserialization of a `Vec<String>` field. -/
def tagsOfJson : JsonValue → Option (List (List Char))
  | .arr items => strListOfJson items
  | _ => none

/-- First member with the given key, as the derived visitor sees it. -/
def memberLookup (key : List Char) : List (List Char × JsonValue) → Option JsonValue
  | [] => none
  | (k, v) :: ms => if k = key then some v else memberLookup key ms

/-- The derived `Deserialize` for `Point`: the document must be an object
providing all four fields at their declared types (the derived visitor
ignores unknown members and rejects a missing or ill-typed field). -/
def point_from_json (j : JsonValue) : Option Point :=
  match j with
  | .obj ms =>
    match memberLookup ['x'] ms, memberLookup ['y'] ms,
        memberLookup ['l', 'a', 'b', 'e', 'l'] ms,
        memberLookup ['t', 'a', 'g', 's'] ms with
    | some jx, some jy, some jl, some jt =>
      match i32OfJson jx, i32OfJson jy, strOfJson jl, tagsOfJson jt with
      | some x, some y, some l, some t => some ⟨x, y, l, t⟩
      | _, _, _, _ => none
    | _, _, _, _ => none
  | _ => none

/-- `deserialize_json_string_to_struct` at the `Point` instantiation:
`serde_json::from_str`, failing on malformed JSON or on a document that is
not a `Point`. -/
def deserialize_json_string_to_struct (cs : List Char) : Except JsonError Point :=
  match json_from_str cs with
  | none => .error .malformed
  | some j =>
    match point_from_json j with
    | some p => .ok p
    | none => .error .badShape

/-! ## `read_json_file.rs` -/
/-- `read_json_file_to_value`: read the file (converting the `io::Error`
into a `serde_json::Error` with `Error::io`), then parse it into a generic
`Value`. -/
def read_json_file_to_value (fs : FileSys) (filepath : String) :
    Except JsonError JsonValue :=
  match FileSys.find fs filepath with
  | none => .error (.Io .notFound)
  | some data =>
    match json_from_str data with
    | some v => .ok v
    | none => .error .malformed

/-- `read_json_file_to_struct`: the same read, then `from_str` straight into
the target type, abstracted over the target's derived decoder. -/
def read_json_file_to_struct {T : Type} (fs : FileSys) (filepath : String)
    (decodeT : JsonValue → Option T) : Except JsonError T :=
  match FileSys.find fs filepath with
  | none => .error (.Io .notFound)
  | some data =>
    match json_from_str data with
    | none => .error .malformed
    | some j =>
      match decodeT j with
      | some t => .ok t
      | none => .error .badShape

/-- Head-of-input test used to state when a digit run cannot be extended. -/
def headIsDigit : List Char → Bool
  | [] => false
  | c :: _ => c.isDigit

/-- The rendered `Point` text from the `"tags"` value onward. -/
def valTags (p : Point) : List Char := renderTags p.tags ++ '\n' :: ['}']

/-- The rendered `"tags"` member after its opening quote. -/
def restTags (p : Point) : List Char :=
  't' :: 'a' :: 'g' :: 's' :: '"' :: ':' :: ' ' :: valTags p

/-- The rendered text following the `"label"` value. -/
def afterLabel (p : Point) : List Char :=
  ',' :: '\n' :: (indentChars 1 ++ '"' :: restTags p)

/-- The rendered `"label"` member after its opening quote. -/
def restLabel (p : Point) : List Char :=
  'l' :: 'a' :: 'b' :: 'e' :: 'l' :: '"' :: ':' :: ' ' :: '"' ::
    (escString p.label ++ '"' :: afterLabel p)

/-- The rendered text following the `"y"` value. -/
def afterY (p : Point) : List Char :=
  ',' :: '\n' :: (indentChars 1 ++ '"' :: restLabel p)

/-- The rendered `"y"` member after its opening quote. -/
def restY (p : Point) : List Char :=
  'y' :: '"' :: ':' :: ' ' :: (intChars p.y ++ afterY p)

/-- The rendered text following the `"x"` value. -/
def afterX (p : Point) : List Char :=
  ',' :: '\n' :: (indentChars 1 ++ '"' :: restY p)

/-- The rendered `"x"` member after its opening quote. -/
def restX (p : Point) : List Char :=
  'x' :: '"' :: ':' :: ' ' :: (intChars p.x ++ afterX p)

/-! ### Write/read round trip (claim C1) -/
theorem splitNl_ne_nil (cs : List Char) : splitNl cs ≠ [] := by
  induction cs with
  | nil => simp [splitNl]
  | cons c cs ih =>
    by_cases h : c = '\n'
    · subst h; simp [splitNl]
    · rw [splitNl.eq_def]
      cases cs with
      | nil => simp [splitNl, h]
      | cons d ds =>
        simp only [h]
        cases hs : splitNl (d :: ds) with
        | nil => exact absurd hs ih
        | cons l ls => simp [h, hs]

theorem splitNl_line (l : List Char) (h : '\n' ∉ l) (rest : List Char) :
    splitNl (l ++ '\n' :: rest) = l :: splitNl rest := by
  induction l with
  | nil => simp [splitNl]
  | cons c t ih =>
    have hc : c ≠ '\n' := fun e => h (e ▸ List.mem_cons_self c t)
    have ht : '\n' ∉ t := fun m => h (List.mem_cons_of_mem c m)
    rw [List.cons_append, splitNl.eq_def]
    simp [hc, ih ht]

theorem splitNl_joinLines (ls : List (List Char)) (h : ∀ l ∈ ls, '\n' ∉ l) :
    splitNl (joinLines ls) = ls ++ [[]] := by
  induction ls with
  | nil => simp [joinLines, splitNl]
  | cons l ls ih =>
    rw [joinLines, splitNl_line l (h l (List.mem_cons_self l ls)) (joinLines ls),
      ih (fun x hx => h x (List.mem_cons_of_mem l hx))]
    rfl

theorem chopCR_id (l : List Char) (h : l.getLast? ≠ some '\r') : chopCR l = l := by
  rw [chopCR.eq_def]
  cases hl : l.getLast? with
  | none => rfl
  | some c =>
    by_cases hc : c = '\r'
    · exact absurd (by rw [hl, hc]) h
    · simp [hc]

theorem rustLinesOf_append_nil (ls : List (List Char)) :
    rustLinesOf (ls ++ [[]]) = ls.map chopCR := by
  induction ls with
  | nil => simp [rustLinesOf]
  | cons l ls ih =>
    cases ls with
    | nil => simp [rustLinesOf]
    | cons a as => simpa [rustLinesOf] using ih

theorem map_chopCR_id :
    ∀ ls : List (List Char), (∀ l ∈ ls, l.getLast? ≠ some '\r') → ls.map chopCR = ls
  | [], _ => rfl
  | a :: as, h => by
    rw [List.map_cons, chopCR_id a (h a (List.mem_cons_self a as)),
      map_chopCR_id as (fun x hx => h x (List.mem_cons_of_mem a hx))]

theorem rustLines_joinLines (ls : List (List Char))
    (h : ∀ l ∈ ls, '\n' ∉ l ∧ l.getLast? ≠ some '\r') :
    rustLines (joinLines ls) = ls := by
  rw [rustLines, splitNl_joinLines ls (fun l hl => (h l hl).1), rustLinesOf_append_nil]
  exact map_chopCR_id ls (fun l hl => (h l hl).2)

/-- C1, counterexample: the write/read round trip is not the identity on every
list of strings.  Writing the one-element list `["a\nb"]` and reading the file
back yields the two lines `["a", "b"]`, not the original list. -/
theorem write_read_c1_counterexample :
    read_text_file (write_text_file [] "f.txt" [['a', '\n', 'b']] true) "f.txt"
      = .ok [['a'], ['b']]
    ∧ [['a'], ['b']] ≠ [['a', '\n', 'b']] := by
  exact ⟨rfl, by decide⟩

/-- C1, amended: for every file path and every list of strings in which no
string contains a `'\n'` and no string ends in `'\r'`, writing with
`overwrite = true` and then reading returns `Ok` of exactly that list. -/
theorem write_then_read_same_lines (fs : FileSys) (p : String) (ls : List (List Char))
    (h : ∀ l ∈ ls, '\n' ∉ l ∧ l.getLast? ≠ some '\r') :
    read_text_file (write_text_file fs p ls true) p = .ok ls := by
  have hfind : FileSys.find (write_text_file fs p ls true) p = some (joinLines ls) := by
    rw [write_text_file]
    show FileSys.find ((p, _) :: fs) p = _
    rw [FileSys.find]
    simp
  rw [read_text_file, hfind]
  show Except.ok (rustLines (joinLines ls)) = _
  rw [rustLines_joinLines ls h]

/-- Witness for the amended C1 round trip at a concrete path and line list. -/
theorem write_then_read_same_lines_witness :
    read_text_file (write_text_file [] "out.txt" [['h', 'i'], []] true) "out.txt"
      = .ok [['h', 'i'], []] :=
  write_then_read_same_lines [] "out.txt" [['h', 'i'], []] (by decide)

/-- C5: `read_text_file` returns `Ok` with the file's lines when the file
exists (in particular, a file written as terminator-free lines comes back as
exactly those lines, in file order, without their terminators), and fails
with the `io::Error` of `File::open` when the file does not exist. -/
theorem read_text_file_contract (fs : FileSys) (p : String) :
    (∀ c, FileSys.find fs p = some c → read_text_file fs p = .ok (rustLines c))
    ∧ (∀ ls, (∀ l ∈ ls, '\n' ∉ l ∧ l.getLast? ≠ some '\r') →
        FileSys.find fs p = some (joinLines ls) → read_text_file fs p = .ok ls)
    ∧ (FileSys.find fs p = none → read_text_file fs p = .error .notFound) := by
  refine ⟨fun c hc => ?_, fun ls hls hc => ?_, fun hn => ?_⟩
  · rw [read_text_file, hc]
  · rw [read_text_file, hc]
    show Except.ok (rustLines (joinLines ls)) = _
    rw [rustLines_joinLines ls hls]
  · rw [read_text_file, hn]

/-- Witness for C5 at a concrete file system: a present file is read back as
its lines, a missing file surfaces the I/O error. -/
theorem read_text_file_contract_witness :
    read_text_file [("d.txt", joinLines [['x', 'y']])] "d.txt" = .ok [['x', 'y']]
    ∧ read_text_file [] "d.txt" = .error .notFound :=
  ⟨(read_text_file_contract [("d.txt", joinLines [['x', 'y']])] "d.txt").2.1
      [['x', 'y']] (by decide) rfl,
   (read_text_file_contract [] "d.txt").2.2 rfl⟩

theorem foldl_incrementWorker (schedule : List (Fin 10)) :
    ∀ a : Int, schedule.foldl incrementWorker a = a + schedule.length := by
  induction schedule with
  | nil => intro a; simp
  | cons t ts ih =>
    intro a
    rw [List.foldl_cons, ih, List.length_cons]
    show a + 1 + ts.length = _
    push_cast
    ring

/-- C8: whenever the schedule contains each of the 10 spawned workers exactly
once — which joining every handle guarantees — the final counter value read
after the joins is exactly 10. -/
theorem shared_mutable_state_final (schedule : List (Fin 10))
    (h : schedule.Perm (List.finRange 10)) :
    shared_mutable_state schedule = 10 := by
  rw [shared_mutable_state, foldl_incrementWorker]
  rw [h.length_eq, List.length_finRange]
  norm_num

/-- Witness for C8 at a concrete lock-acquisition order. -/
theorem shared_mutable_state_final_witness :
    shared_mutable_state (List.finRange 10).reverse = 10 :=
  shared_mutable_state_final (List.finRange 10).reverse (List.reverse_perm _)

theorem wrap64_wrap64_add_left (a b : Int) : wrap64 (wrap64 a + b) = wrap64 (a + b) := by
  unfold wrap64
  omega

theorem wrap64_wrap64_add_right (a b : Int) : wrap64 (a + wrap64 b) = wrap64 (a + b) := by
  unfold wrap64
  omega

theorem wrap64_zero : wrap64 0 = 0 := by decide

theorem wrap64_idem (z : Int) : wrap64 (wrap64 z) = wrap64 z := by
  unfold wrap64
  omega

theorem sum_of_squares_foldl (numbers : List Int) :
    ∀ a : Int, wrap64 a = a →
      numbers.foldl (fun acc x => i64Add acc (i64Sq x)) a
        = wrap64 (a + ((numbers.map i64Sq).sum)) := by
  induction numbers with
  | nil =>
    intro a ha
    show a = wrap64 (a + 0)
    rw [Int.add_zero, ha]
  | cons x xs ih =>
    intro a ha
    rw [List.foldl_cons, List.map_cons, List.sum_cons]
    show List.foldl _ (i64Add a (i64Sq x)) xs = _
    rw [ih (i64Add a (i64Sq x)) (wrap64_idem _)]
    show wrap64 (wrap64 (a + i64Sq x) + _) = _
    rw [wrap64_wrap64_add_left, Int.add_assoc]

theorem sum_of_squares_sequential_char (numbers : List Int) :
    sum_of_squares_sequential numbers = wrap64 ((numbers.map i64Sq).sum) := by
  rw [sum_of_squares_sequential, sum_of_squares_foldl numbers 0 wrap64_zero,
    Int.zero_add]

theorem sum_of_squares_parallel_char (t : ChunkTree) :
    sum_of_squares_parallel t = wrap64 ((t.flatten.map i64Sq).sum) := by
  induction t with
  | piece c => exact sum_of_squares_sequential_char c
  | node l r ihl ihr =>
    rw [ChunkTree.flatten, List.map_append, List.sum_append,
      sum_of_squares_parallel, ihl, ihr]
    show wrap64 (wrap64 _ + wrap64 _) = _
    rw [wrap64_wrap64_add_left, wrap64_wrap64_add_right]

/-- C9: for every slice and every way Rayon may split it,
`sum_of_squares_parallel` returns the same value as
`sum_of_squares_sequential` on that slice, and that value is the `i64` sum of
`x * x` over all elements of the slice. -/
theorem sum_of_squares_parallel_eq_sequential (t : ChunkTree) :
    sum_of_squares_parallel t = sum_of_squares_sequential t.flatten
    ∧ sum_of_squares_sequential t.flatten = wrap64 ((t.flatten.map i64Sq).sum) :=
  ⟨by rw [sum_of_squares_parallel_char, sum_of_squares_sequential_char],
   sum_of_squares_sequential_char t.flatten⟩

theorem wsLoopTrace_ping_pong (incoming : List (Except Unit WsMsg)) :
    ∀ i d, (wsLoopTrace incoming).get? i = some (.received (.ping d)) →
      (wsLoopTrace incoming).get? (i + 1) = some (.sent (.pong d)) := by
  induction incoming with
  | nil => intro i d h; simp [wsLoopTrace] at h
  | cons x rest ih =>
    intro i d h
    match x with
    | .error e =>
      rw [wsLoopTrace] at h ⊢
      cases i with
      | zero => exact absurd h (by simp)
      | succ j => exact absurd h (by simp)
    | .ok (.text s) =>
      rw [wsLoopTrace] at h ⊢
      by_cases hc : listContains wsGreeting s = true
      · rw [if_pos hc] at h ⊢
        cases i with
        | zero => exact absurd h (by simp)
        | succ j => exact absurd h (by simp)
      · rw [if_neg hc] at h ⊢
        cases i with
        | zero => exact absurd h (by simp)
        | succ j => exact ih j d h
    | .ok (.binary b) =>
      rw [wsLoopTrace] at h ⊢
      cases i with
      | zero => exact absurd h (by simp)
      | succ j => exact ih j d h
    | .ok (.ping d0) =>
      rw [wsLoopTrace] at h ⊢
      cases i with
      | zero =>
        simp only [List.get?_cons_zero, Option.some.injEq] at h
        cases h
        rfl
      | succ j =>
        cases j with
        | zero => exact absurd h (by simp)
        | succ k => exact ih k d h
    | .ok (.pong d0) =>
      rw [wsLoopTrace] at h ⊢
      cases i with
      | zero => exact absurd h (by simp)
      | succ j => exact ih j d h
    | .ok .close =>
      rw [wsLoopTrace] at h ⊢
      cases i with
      | zero => exact absurd h (by simp)
      | succ j => exact absurd h (by simp)

/-- C10: in every run of `run_websocket_client`, whenever a `Ping` is read
from the stream, the very next event of the run is sending a `Pong` with
exactly the ping's payload — in particular it happens before any further
message is read. -/
theorem run_websocket_client_ping_pong (incoming : List (Except Unit WsMsg))
    (i : Nat) (d : List Nat)
    (h : (run_websocket_client incoming).get? i = some (.received (.ping d))) :
    (run_websocket_client incoming).get? (i + 1) = some (.sent (.pong d)) := by
  match i with
  | 0 => exact absurd h (by simp [run_websocket_client])
  | j + 1 =>
    rw [run_websocket_client] at h ⊢
    rw [List.get?_cons_succ] at h ⊢
    exact wsLoopTrace_ping_pong incoming j d h

/-- Witness for C10: a concrete run receiving one ping answers it with the
matching pong immediately. -/
theorem run_websocket_client_ping_pong_witness :
    (run_websocket_client [.ok (.ping [1, 2])]).get? 2
      = some (.sent (.pong [1, 2])) :=
  run_websocket_client_ping_pong [.ok (.ping [1, 2])] 1 [1, 2] rfl

/-- C3, counterexample: not every fallible function surfaces the library's
error type directly.  `process_data` returns errors of the repository-defined
`DataProcessingError`: a missing file comes back wrapped as `Io`, and input
`"-5"` produces `InvalidData`, an error no underlying library raised at all. -/
theorem process_data_c3_counterexample :
    process_data [] ['1'] "real_file.txt" = .error (.Io .notFound)
    ∧ process_data [("real_file.txt", "content".data)] ['-', '5'] "real_file.txt"
        = .error (.InvalidData "Negative numbers (-5) are not allowed".data) :=
  ⟨rfl, by simp [process_data, FileSys.find, parse_i32, negativeMsg, intChars,
      natChars, digitRunVal, digitVal]⟩

/-- C3, amended: every fallible function, outside `thiserror_custom_error.rs`
and outside the connect conversion of `websocket_client_tungstenite.rs`,
surfaces the underlying library's error directly (here: `read_text_file`
returns the `io::Error` itself, and `run_websocket_client` surfaces the URL
library's parse error unchanged).  `process_data` instead aggregates the
library errors into the repository-defined `DataProcessingError` (`Io` wraps
the I/O error, `Parse` wraps the parse error) and raises its own
`InvalidData` error for negative parsed numbers, and `run_websocket_client`
replaces the connection library's error with the repository-formatted
`String` message `"Failed to connect: {e}"`. -/
theorem error_type_discipline {Conn : Type} (fs : FileSys) (inp : List Char) (p : String)
    (parseUrl : String → Except UrlParseError (List Char))
    (connect : List Char → Except TungsteniteError Conn) (wsUrl : String) :
    (FileSys.find fs p = none → read_text_file fs p = .error .notFound)
    ∧ (FileSys.find fs p = none → process_data fs inp p = .error (.Io .notFound))
    ∧ (∀ e c, FileSys.find fs p = some c → parse_i32 inp = .error e →
        process_data fs inp p = .error (.Parse e))
    ∧ (∀ n c, FileSys.find fs p = some c → parse_i32 inp = .ok n → n < 0 →
        process_data fs inp p = .error (.InvalidData (negativeMsg n)))
    ∧ (∀ e, parseUrl wsUrl = .error e →
        ws_connect_phase parseUrl connect wsUrl = .error (.urlParse e))
    ∧ (∀ u e, parseUrl wsUrl = .ok u → connect u = .error e →
        ws_connect_phase parseUrl connect wsUrl
          = .error (.message ("Failed to connect: ".data ++ e.display))) := by
  refine ⟨fun hn => ?_, fun hn => ?_, fun e c hc he => ?_, fun n c hc hn hneg => ?_,
    fun e hu => ?_, fun u e hu hc => ?_⟩
  · rw [read_text_file, hn]
  · rw [process_data, hn]
  · rw [process_data, hc, he]
  · rw [process_data, hc, hn]
    show (if _ then _ else _) = _
    rw [if_pos hneg]
  · rw [ws_connect_phase, hu]
  · rw [ws_connect_phase, hu]
    show (match connect u with
      | .error e => Except.error (WsClientError.message ("Failed to connect: ".data ++ e.display))
      | .ok conn => Except.ok conn) = _
    rw [hc]

/-- Witness for the amended C3 at concrete inputs: the missing-file, parse
failure, and negative-number branches of `process_data`, the direct
`io::Error` of `read_text_file`, the surfaced URL parse error, and the
connect failure replaced by its formatted message. -/
theorem error_type_discipline_witness :
    read_text_file [] "g.txt" = .error .notFound
    ∧ process_data [] ['1'] "g.txt" = .error (.Io .notFound)
    ∧ process_data [("g.txt", ['c'])] ['x'] "g.txt"
        = .error (.Parse .invalidDigit)
    ∧ process_data [("g.txt", ['c'])] ['-', '7'] "g.txt"
        = .error (.InvalidData (negativeMsg (-7)))
    ∧ @ws_connect_phase Unit (fun _ => .error .invalid) (fun _ => .ok ()) "bad url"
        = .error (.urlParse .invalid)
    ∧ @ws_connect_phase Unit (fun _ => .ok ['w']) (fun _ => .error ⟨"boom".data⟩) "ws://x"
        = .error (.message "Failed to connect: boom".data) :=
  ⟨(@error_type_discipline Unit [] ['1'] "g.txt"
      (fun _ => .error .invalid) (fun _ => .ok ()) "bad url").1 rfl,
   (@error_type_discipline Unit [] ['1'] "g.txt"
      (fun _ => .error .invalid) (fun _ => .ok ()) "bad url").2.1 rfl,
   (@error_type_discipline Unit [("g.txt", ['c'])] ['x'] "g.txt"
      (fun _ => .error .invalid) (fun _ => .ok ()) "bad url").2.2.1
      .invalidDigit ['c'] rfl rfl,
   (@error_type_discipline Unit [("g.txt", ['c'])] ['-', '7'] "g.txt"
      (fun _ => .error .invalid) (fun _ => .ok ()) "bad url").2.2.2.1
      (-7) ['c'] rfl rfl (by norm_num),
   (@error_type_discipline Unit [] ['1'] "g.txt"
      (fun _ => .error .invalid) (fun _ => .ok ()) "bad url").2.2.2.2.1
      .invalid rfl,
   (@error_type_discipline Unit [] ['1'] "g.txt"
      (fun _ => .ok ['w']) (fun _ => .error ⟨"boom".data⟩) "ws://x").2.2.2.2.2
      ['w'] ⟨"boom".data⟩ rfl rfl⟩

/-- C4, counterexample: `process_data` rejects an input that every wrapped
library call accepts.  The file exists (so `File::open` succeeds) and
`"1001".parse::<i32>()` succeeds with 1001, yet `process_data` returns its
own `ConfigError`. -/
theorem process_data_c4_counterexample :
    parse_i32 ['1', '0', '0', '1'] = .ok 1001
    ∧ process_data [("real_file.txt", "content".data)] ['1', '0', '0', '1']
        "real_file.txt" = .error (.ConfigError configDetails) :=
  ⟨rfl, rfl⟩

/-- C4, amended: no wrapping function adds an edge-case policy of its own
beyond the wrapped library's (here: `read_text_file` returns `Ok` for every
file the library opens), except `process_data`, which additionally rejects
parsed numbers below 0 and above 1000; numbers the libraries accept inside
those bounds go through. -/
theorem no_added_rejection_except_process_data (fs : FileSys) (p : String) :
    (∀ c, FileSys.find fs p = some c → read_text_file fs p = .ok (rustLines c))
    ∧ (∀ inp n c, FileSys.find fs p = some c → parse_i32 inp = .ok n →
        0 ≤ n → n ≤ 1000 → process_data fs inp p = .ok (n * 2)) := by
  refine ⟨fun c hc => ?_, fun inp n c hc hn h0 h1 => ?_⟩
  · rw [read_text_file, hc]
  · rw [process_data, hc, hn]
    show (if _ then _ else _) = _
    rw [if_neg (by omega), if_neg (by omega)]

/-- Witness for the amended C4 at concrete inputs. -/
theorem no_added_rejection_except_process_data_witness :
    read_text_file [("h.txt", ['z'])] "h.txt" = .ok [['z']]
    ∧ process_data [("h.txt", ['z'])] ['5', '0'] "h.txt" = .ok 100 :=
  ⟨(no_added_rejection_except_process_data [("h.txt", ['z'])] "h.txt").1 ['z'] rfl,
   (no_added_rejection_except_process_data [("h.txt", ['z'])] "h.txt").2
      ['5', '0'] 50 ['z'] rfl rfl (by norm_num) (by norm_num)⟩

/-- C6: `read_json_file_to_value` and `read_json_file_to_struct` fail exactly
when the input is bad — an error when the file cannot be read (the converted
`io::Error`) or when its contents are malformed, and `Ok` with the parsed
value (resp. decoded struct) when the file is readable and its contents
well-formed (resp. of the expected shape). -/
theorem read_json_file_contract {T : Type} (fs : FileSys) (p : String)
    (decodeT : JsonValue → Option T) :
    (FileSys.find fs p = none →
      read_json_file_to_value fs p = .error (.Io .notFound)
      ∧ read_json_file_to_struct fs p decodeT = .error (.Io .notFound))
    ∧ (∀ d, FileSys.find fs p = some d → json_from_str d = none →
      read_json_file_to_value fs p = .error .malformed
      ∧ read_json_file_to_struct fs p decodeT = .error .malformed)
    ∧ (∀ d v, FileSys.find fs p = some d → json_from_str d = some v →
      read_json_file_to_value fs p = .ok v)
    ∧ (∀ d j t, FileSys.find fs p = some d → json_from_str d = some j →
      decodeT j = some t → read_json_file_to_struct fs p decodeT = .ok t) := by
  refine ⟨fun hn => ⟨?_, ?_⟩, fun d hd hbad => ⟨?_, ?_⟩,
    fun d v hd hv => ?_, fun d j t hd hj ht => ?_⟩
  · rw [read_json_file_to_value, hn]
  · rw [read_json_file_to_struct, hn]
  · rw [read_json_file_to_value, hd]
    show (match json_from_str d with
      | some v => Except.ok v
      | none => Except.error JsonError.malformed) = _
    rw [hbad]
  · rw [read_json_file_to_struct, hd]
    show (match json_from_str d with
      | none => Except.error JsonError.malformed
      | some j =>
        match decodeT j with
        | some t => Except.ok t
        | none => Except.error JsonError.badShape) = _
    rw [hbad]
  · rw [read_json_file_to_value, hd]
    show (match json_from_str d with
      | some v => Except.ok v
      | none => Except.error JsonError.malformed) = _
    rw [hv]
  · rw [read_json_file_to_struct, hd]
    show (match json_from_str d with
      | none => Except.error JsonError.malformed
      | some j =>
        match decodeT j with
        | some t => Except.ok t
        | none => Except.error JsonError.badShape) = _
    rw [hj]
    show (match decodeT j with
      | some t => Except.ok t
      | none => Except.error JsonError.badShape) = _
    rw [ht]

/-- Witness for C6 on concrete files: a well-formed document is returned
(and decoded), a missing file and a malformed document are errors. -/
theorem read_json_file_contract_witness :
    read_json_file_to_value [("c.json", ['7'])] "c.json" = .ok (.num 7)
    ∧ read_json_file_to_struct [("c.json", ['7'])] "c.json" i32OfJson = .ok 7
    ∧ read_json_file_to_value [] "c.json" = .error (.Io .notFound)
    ∧ read_json_file_to_value [("c.json", ['{'])] "c.json" = .error .malformed :=
  ⟨(read_json_file_contract [("c.json", ['7'])] "c.json" i32OfJson).2.2.1
      ['7'] (.num 7) rfl rfl,
   (read_json_file_contract [("c.json", ['7'])] "c.json" i32OfJson).2.2.2
      ['7'] (.num 7) 7 rfl rfl rfl,
   ((read_json_file_contract [] "c.json" i32OfJson).1 rfl).1,
   ((read_json_file_contract [("c.json", ['{'])] "c.json" i32OfJson).2.1
      ['{'] rfl rfl).1⟩

/-! ### Round-trip lemmas: whitespace and decimal digits -/
theorem dropWs_cons_not_ws (c : Char) (cs : List Char) (h : isWsChar c = false) :
    dropWs (c :: cs) = c :: cs := by
  rw [dropWs, h]
  rfl

theorem dropWs_cons_ws (c : Char) (cs : List Char) (h : isWsChar c = true) :
    dropWs (c :: cs) = dropWs cs := by
  rw [dropWs, h]
  rfl

theorem dropWs_replicate_space (m : Nat) (cs : List Char) :
    dropWs (List.replicate m ' ' ++ cs) = dropWs cs := by
  induction m with
  | zero => rfl
  | succ k ih =>
    rw [List.replicate_succ, List.cons_append, dropWs_cons_ws _ _ (by rfl), ih]

theorem dropWs_nl_indent (k : Nat) (cs : List Char) :
    dropWs ('\n' :: (indentChars k ++ cs)) = dropWs cs := by
  rw [dropWs_cons_ws _ _ (by rfl), indentChars, dropWs_replicate_space]

theorem digitVal_ofNat : ∀ d : Nat, d < 10 → digitVal (Char.ofNat (48 + d)) = d := by
  decide

theorem isDigit_ofNat : ∀ d : Nat, d < 10 → (Char.ofNat (48 + d)).isDigit = true := by
  decide

theorem digitRunVal_snoc (ds : List Char) (c : Char) :
    digitRunVal (ds ++ [c]) = 10 * digitRunVal ds + digitVal c := by
  rw [digitRunVal, digitRunVal, List.foldl_append]
  rfl

theorem natChars_ne_nil (n : Nat) : natChars n ≠ [] := by
  rw [natChars]
  split
  · simp
  · simp

theorem natChars_digits (n : Nat) : ∀ c ∈ natChars n, c.isDigit = true := by
  induction n using Nat.strong_induction_on with
  | _ n ih =>
    rw [natChars]
    split
    · intro c hc
      rw [List.mem_singleton] at hc
      subst hc
      exact isDigit_ofNat _ (by omega)
    · intro c hc
      rw [List.mem_append] at hc
      cases hc with
      | inl h => exact ih (n / 10) (by omega) c h
      | inr h =>
        rw [List.mem_singleton] at h
        subst h
        exact isDigit_ofNat _ (by omega)

theorem digitRunVal_natChars (n : Nat) : digitRunVal (natChars n) = n := by
  induction n using Nat.strong_induction_on with
  | _ n ih =>
    rw [natChars]
    split
    · show digitRunVal ([] ++ [_]) = n
      rw [digitRunVal_snoc, digitVal_ofNat n (by omega)]
      show 10 * digitRunVal [] + n = n
      rw [show digitRunVal [] = 0 from rfl]
      omega
    · rw [digitRunVal_snoc, ih (n / 10) (by omega), digitVal_ofNat _ (by omega)]
      omega

theorem natChars_head_ne_zero (n : Nat) (hn : n ≠ 0) :
    ∀ t : List Char, natChars n ≠ '0' :: t := by
  induction n using Nat.strong_induction_on with
  | _ n ih =>
    intro t
    rw [natChars]
    split
    · intro h
      injection h with h1 _
      have : (48 : Nat) + n < 58 := by omega
      have hz : ∀ d : Nat, d < 10 → d ≠ 0 → Char.ofNat (48 + d) ≠ '0' := by decide
      exact hz n (by omega) hn h1
    · intro h
      cases hm : natChars (n / 10) with
      | nil => exact natChars_ne_nil _ hm
      | cons a as =>
        rw [hm, List.cons_append] at h
        injection h with h1 _
        exact ih (n / 10) (by omega) (by omega) as (by rw [hm, h1])

theorem grabDigits_stop (cs : List Char) (h : headIsDigit cs = false) :
    grabDigits cs = ([], cs) := by
  cases cs with
  | nil => rfl
  | cons c t =>
    rw [headIsDigit] at h
    simp [grabDigits, h]

theorem grabDigits_run (ds : List Char) (hds : ∀ c ∈ ds, c.isDigit = true)
    (rest : List Char) (hr : headIsDigit rest = false) :
    grabDigits (ds ++ rest) = (ds, rest) := by
  induction ds with
  | nil => exact grabDigits_stop rest hr
  | cons c t ih =>
    have hc : c.isDigit = true := hds c (List.mem_cons_self c t)
    rw [List.cons_append, grabDigits]
    simp [hc, ih (fun x hx => hds x (List.mem_cons_of_mem c hx))]

theorem natToken_natChars (n : Nat) (rest : List Char) (hr : headIsDigit rest = false) :
    natToken (natChars n ++ rest) = some (n, rest) := by
  rw [natToken, grabDigits_run (natChars n) (natChars_digits n) rest hr]
  cases hm : natChars n with
  | nil => exact absurd hm (natChars_ne_nil n)
  | cons d ds =>
    have hcond : ¬(d = '0' ∧ ds ≠ []) := by
      rintro ⟨h0, hne⟩
      subst h0
      by_cases hn : n = 0
      · subst hn
        rw [show natChars 0 = ['0'] from by simp [natChars]] at hm
        injection hm with _ h2
        exact hne h2.symm
      · exact natChars_head_ne_zero n hn ds hm
    simp only [if_neg hcond]
    rw [← hm, digitRunVal_natChars]

theorem isDigit_char_ne (c : Char) (h : c.isDigit = true) (d : Char)
    (hd : d.isDigit = false) : c ≠ d := by
  intro he
  rw [he, hd] at h
  exact Bool.false_ne_true h

theorem isWsChar_of_digit (c : Char) (h : c.isDigit = true) : isWsChar c = false := by
  cases hw : isWsChar c
  · rfl
  · rw [isWsChar] at hw
    simp only [Bool.or_eq_true, decide_eq_true_eq] at hw
    rcases hw with ((rfl | rfl) | rfl) | rfl <;> exact absurd h (by decide)

theorem numToken_not_minus (c : Char) (r : List Char) (h : c ≠ '-') :
    numToken (c :: r) = (match natToken (c :: r) with
      | some (n, r2) => some (.num (n : Int), r2)
      | none => none) := by
  rw [numToken.eq_def]
  split
  · rename_i heq
    injection heq with h1 _
    exact absurd h1 h
  · rfl

theorem numToken_intChars (n : Int) (rest : List Char) (hr : headIsDigit rest = false) :
    numToken (intChars n ++ rest) = some (.num n, rest) := by
  rw [intChars]
  by_cases hn : n < 0
  · rw [if_pos hn, List.cons_append, numToken]
    rw [natToken_natChars _ _ hr]
    show some (JsonValue.num (-((n.natAbs : Nat) : Int)), rest) = _
    have he : -((n.natAbs : Nat) : Int) = n := by omega
    rw [he]
  · rw [if_neg hn]
    obtain ⟨d, ds, hm⟩ : ∃ d ds, natChars n.natAbs = d :: ds := by
      cases hm : natChars n.natAbs with
      | nil => exact absurd hm (natChars_ne_nil _)
      | cons d ds => exact ⟨d, ds, rfl⟩
    have hd : d.isDigit = true :=
      natChars_digits _ d (by rw [hm]; exact List.mem_cons_self d ds)
    have hdm : d ≠ '-' := isDigit_char_ne d hd '-' (by decide)
    rw [hm, List.cons_append, numToken_not_minus d _ hdm,
      ← List.cons_append, ← hm, natToken_natChars _ _ hr]
    show some (JsonValue.num ((n.natAbs : Nat) : Int), rest) = _
    have he : ((n.natAbs : Nat) : Int) = n := by omega
    rw [he]

/-! ### Round-trip lemmas: string escaping -/
theorem hexQuad_control : ∀ v : Nat, v < 32 →
    hexQuad '0' '0' (hexChar (v / 16)) (hexChar (v % 16)) = some v := by
  decide

theorem strBody_escChar (c : Char) (t : List Char) :
    strBody (escChar c ++ t) = (match strBody t with
      | some (s, r) => some (c :: s, r)
      | none => none) := by
  by_cases h1 : c = '"'
  · subst h1; rfl
  all_goals by_cases h2 : c = '\\'
  · subst h2; rfl
  all_goals by_cases h3 : c = Char.ofNat 8
  · subst h3; rfl
  all_goals by_cases h4 : c = '\t'
  · subst h4; rfl
  all_goals by_cases h5 : c = '\n'
  · subst h5; rfl
  all_goals by_cases h6 : c = Char.ofNat 12
  · subst h6; rfl
  all_goals by_cases h7 : c = '\r'
  · subst h7; rfl
  all_goals by_cases h8 : c.toNat < 32
  · rw [escChar, if_neg h1, if_neg h2, if_neg h3, if_neg h4, if_neg h5, if_neg h6,
      if_neg h7, if_pos h8]
    show strBody ('\\' :: 'u' :: '0' :: '0' :: hexChar (c.toNat / 16)
      :: hexChar (c.toNat % 16) :: t) = _
    rw [strBody, hexQuad_control c.toNat h8]
    show (if c.toNat < 55296 ∨ 57343 < c.toNat ∧ c.toNat < 1114112 then
        match strBody t with
        | some (s, r) => some (Char.ofNat c.toNat :: s, r)
        | none => none
      else none) = _
    rw [if_pos (by omega : c.toNat < 55296 ∨ 57343 < c.toNat ∧ c.toNat < 1114112),
      Char.ofNat_toNat]
  · rw [escChar, if_neg h1, if_neg h2, if_neg h3, if_neg h4, if_neg h5, if_neg h6,
      if_neg h7, if_neg h8]
    show strBody (c :: t) = _
    rw [strBody.eq_def]
    split
    · rename_i heq
      exact absurd heq (by simp)
    · rename_i rest heq
      injection heq with hh _
      exact absurd hh h1
    · rename_i hq1 hq2 hq3 hq4 hq5 heq
      injection heq with hh _
      exact absurd hh h2
    · rename_i e rest heq
      injection heq with hh _
      exact absurd hh h2
    · rename_i c2 rest hne1 hne2 hne3 heq
      injection heq with hh ht2
      subst hh
      subst ht2
      rw [if_neg (by omega)]

theorem strBody_escString (s : List Char) :
    ∀ t, strBody (escString s ++ '"' :: t) = some (s, t) := by
  induction s with
  | nil => intro t; rfl
  | cons c s ih =>
    intro t
    rw [escString, List.append_assoc, strBody_escChar, ih t]

/-! ### Round-trip lemmas: the value parser on rendered output -/
theorem parseVal_str (f : Nat) (cs s tail : List Char)
    (h : dropWs cs = '"' :: (escString s ++ '"' :: tail)) :
    parseVal (f + 1) cs = some (.str s, tail) := by
  rw [parseVal, h]
  show (match strBody (escString s ++ '"' :: tail) with
    | some (sr : List Char × List Char) => some (JsonValue.str sr.1, sr.2)
    | none => none) = _
  rw [strBody_escString]

theorem parseValStep_num (pe : List Char → Option (List JsonValue × List Char))
    (pm : List Char → Option (List (List Char × JsonValue) × List Char))
    (c : Char) (r : List Char) (h : c = '-' ∨ c.isDigit = true) :
    parseValStep pe pm c r = numToken (c :: r) := by
  have hn : c ≠ 'n' := by
    rcases h with rfl | h
    · decide
    · exact isDigit_char_ne c h 'n' (by decide)
  have ht : c ≠ 't' := by
    rcases h with rfl | h
    · decide
    · exact isDigit_char_ne c h 't' (by decide)
  have hf : c ≠ 'f' := by
    rcases h with rfl | h
    · decide
    · exact isDigit_char_ne c h 'f' (by decide)
  have hq : c ≠ '"' := by
    rcases h with rfl | h
    · decide
    · exact isDigit_char_ne c h '"' (by decide)
  have hb : c ≠ '[' := by
    rcases h with rfl | h
    · decide
    · exact isDigit_char_ne c h '[' (by decide)
  have hc : c ≠ '{' := by
    rcases h with rfl | h
    · decide
    · exact isDigit_char_ne c h '{' (by decide)
  rw [parseValStep.eq_def, if_neg hn, if_neg ht, if_neg hf, if_neg hq, if_neg hb,
    if_neg hc, if_pos h]

theorem parseVal_cons (f : Nat) (cs : List Char) (c : Char) (r : List Char)
    (h : dropWs cs = c :: r) :
    parseVal (f + 1) cs = parseValStep (parseElems f) (parseMembers f) c r := by
  rw [parseVal, h]

theorem parseElems_some (f : Nat) (cs : List Char) (v : JsonValue) (r : List Char)
    (h : parseVal f cs = some (v, r)) :
    parseElems (f + 1) cs = parseElemsStep (parseElems f) v r := by
  rw [parseElems, h]

theorem parseMembers_key (f : Nat) (cs : List Char) (r k r2 : List Char)
    (hcs : dropWs cs = '"' :: r)
    (hkey : strBody r = some (k, r2)) :
    parseMembers (f + 1) cs = parseMembersStep (parseVal f) (parseMembers f) k r2 := by
  rw [parseMembers, hcs]
  show (if ('"' : Char) = '"' then
      match strBody r with
      | none => none
      | some kr => parseMembersStep (parseVal f) (parseMembers f) kr.1 kr.2
    else none) = _
  rw [if_pos rfl, hkey]

theorem parseVal_num (f : Nat) (cs tail : List Char) (n : Int)
    (h : dropWs cs = intChars n ++ tail) (ht : headIsDigit tail = false) :
    parseVal (f + 1) cs = some (.num n, tail) := by
  have hnum := numToken_intChars n tail ht
  by_cases hn : n < 0
  · have hshape : intChars n ++ tail = '-' :: (natChars n.natAbs ++ tail) := by
      rw [intChars, if_pos hn, List.cons_append]
    rw [hshape] at h hnum
    rw [parseVal_cons f cs '-' _ h, parseValStep_num _ _ _ _ (Or.inl rfl)]
    exact hnum
  · obtain ⟨d, ds, hm⟩ : ∃ d ds, natChars n.natAbs = d :: ds := by
      cases hm : natChars n.natAbs with
      | nil => exact absurd hm (natChars_ne_nil _)
      | cons d ds => exact ⟨d, ds, rfl⟩
    have hd : d.isDigit = true :=
      natChars_digits _ d (by rw [hm]; exact List.mem_cons_self d ds)
    have hshape : intChars n ++ tail = d :: (ds ++ tail) := by
      rw [intChars, if_neg hn, hm, List.cons_append]
    rw [hshape] at h hnum
    rw [parseVal_cons f cs d _ h, parseValStep_num _ _ _ _ (Or.inr hd)]
    exact hnum

theorem parseValStep_bracket (pe : List Char → Option (List JsonValue × List Char))
    (pm : List Char → Option (List (List Char × JsonValue) × List Char))
    (r : List Char) :
    parseValStep pe pm '[' r = (match dropWs r with
      | [] => none
      | d :: r2 =>
        if d = ']' then some (.arr [], r2)
        else
          match pe r with
          | some er => some (.arr er.1, er.2)
          | none => none) := by
  rw [parseValStep.eq_def, if_neg (by decide), if_neg (by decide), if_neg (by decide),
    if_neg (by decide), if_pos rfl]

theorem parseValStep_brace (pe : List Char → Option (List JsonValue × List Char))
    (pm : List Char → Option (List (List Char × JsonValue) × List Char))
    (r : List Char) :
    parseValStep pe pm '{' r = (match dropWs r with
      | [] => none
      | d :: r2 =>
        if d = '}' then some (.obj [], r2)
        else
          match pm r with
          | some mr => some (.obj mr.1, mr.2)
          | none => none) := by
  rw [parseValStep.eq_def, if_neg (by decide), if_neg (by decide), if_neg (by decide),
    if_neg (by decide), if_neg (by decide), if_pos rfl]

theorem parseElemsStep_comma (pe : List Char → Option (List JsonValue × List Char))
    (v : JsonValue) (r r2 : List Char) (h : dropWs r = ',' :: r2) :
    parseElemsStep pe v r = (match pe r2 with
      | some er => some (v :: er.1, er.2)
      | none => none) := by
  rw [parseElemsStep, h]
  show (if (',' : Char) = ',' then
      match pe r2 with
      | some er => some (v :: er.1, er.2)
      | none => none
    else if (',' : Char) = ']' then some ([v], r2) else none) = _
  rw [if_pos rfl]

theorem parseElemsStep_close (pe : List Char → Option (List JsonValue × List Char))
    (v : JsonValue) (r r2 : List Char) (h : dropWs r = ']' :: r2) :
    parseElemsStep pe v r = some ([v], r2) := by
  rw [parseElemsStep, h]
  show (if (']' : Char) = ',' then
      match pe r2 with
      | some er => some (v :: er.1, er.2)
      | none => none
    else if (']' : Char) = ']' then some ([v], r2) else none) = _
  rw [if_neg (by decide), if_pos rfl]

theorem parseMembersStep_value (pv : List Char → Option (JsonValue × List Char))
    (pm : List Char → Option (List (List Char × JsonValue) × List Char))
    (k r2 r3 r4 : List Char) (v : JsonValue)
    (h2 : dropWs r2 = ':' :: r3) (hv : pv r3 = some (v, r4)) :
    parseMembersStep pv pm k r2 = parseMemberRest pm k v r4 := by
  rw [parseMembersStep, h2]
  show (if (':' : Char) = ':' then
      match pv r3 with
      | none => none
      | some vr => parseMemberRest pm k vr.1 vr.2
    else none) = _
  rw [if_pos rfl, hv]

theorem parseMemberRest_comma
    (pm : List Char → Option (List (List Char × JsonValue) × List Char))
    (k : List Char) (v : JsonValue) (r4 r5 : List Char)
    (h : dropWs r4 = ',' :: r5) :
    parseMemberRest pm k v r4 = (match pm r5 with
      | some mr => some ((k, v) :: mr.1, mr.2)
      | none => none) := by
  rw [parseMemberRest, h]
  show (if (',' : Char) = ',' then
      match pm r5 with
      | some mr => some ((k, v) :: mr.1, mr.2)
      | none => none
    else if (',' : Char) = '}' then some ([(k, v)], r5) else none) = _
  rw [if_pos rfl]

theorem parseMemberRest_close
    (pm : List Char → Option (List (List Char × JsonValue) × List Char))
    (k : List Char) (v : JsonValue) (r4 r5 : List Char)
    (h : dropWs r4 = '}' :: r5) :
    parseMemberRest pm k v r4 = some ([(k, v)], r5) := by
  rw [parseMemberRest, h]
  show (if ('}' : Char) = ',' then
      match pm r5 with
      | some mr => some ((k, v) :: mr.1, mr.2)
      | none => none
    else if ('}' : Char) = '}' then some ([(k, v)], r5) else none) = _
  rw [if_neg (by decide), if_pos rfl]

theorem renderStr_shape (s X : List Char) :
    renderStr s ++ X = '"' :: (escString s ++ '"' :: X) := by
  rw [renderStr]
  simp [List.append_assoc]

theorem renderTagsTail_nil_shape (tail : List Char) :
    renderTagsTail [] ++ tail = '\n' :: (indentChars 1 ++ (']' :: tail)) := by
  rw [renderTagsTail]
  simp [List.append_assoc]

theorem renderTagsTail_cons_shape (t : List Char) (ts : List (List Char)) (tail : List Char) :
    renderTagsTail (t :: ts) ++ tail
      = ',' :: ('\n' :: (indentChars 2
          ++ ('"' :: (escString t ++ '"' :: (renderTagsTail ts ++ tail))))) := by
  rw [renderTagsTail]
  simp [renderStr, List.append_assoc]

theorem parseElems_strings (ts : List (List Char)) :
    ∀ (f : Nat) (t tail cs : List Char),
      ts.length + 1 < f →
      dropWs cs = '"' :: (escString t ++ '"' :: (renderTagsTail ts ++ tail)) →
      parseElems f cs = some (.str t :: ts.map .str, tail) := by
  induction ts with
  | nil =>
    intro f t tail cs hf h
    obtain ⟨g, rfl⟩ : ∃ g, f = g + 2 := ⟨f - 2, by omega⟩
    rw [renderTagsTail_nil_shape] at h
    have hv : parseVal (g + 1) cs
        = some (.str t, '\n' :: (indentChars 1 ++ (']' :: tail))) :=
      parseVal_str g cs t _ h
    rw [parseElems_some (g + 1) cs _ _ hv,
      parseElemsStep_close _ _ _ tail (by rw [dropWs_nl_indent, dropWs_cons_not_ws _ _ (by rfl)])]
    rfl
  | cons t2 ts2 ih =>
    intro f t tail cs hf h
    obtain ⟨g, rfl⟩ : ∃ g, f = g + 2 := ⟨f - 2, by omega⟩
    rw [renderTagsTail_cons_shape] at h
    have hv : parseVal (g + 1) cs
        = some (.str t, ',' :: ('\n' :: (indentChars 2
            ++ ('"' :: (escString t2 ++ '"' :: (renderTagsTail ts2 ++ tail)))))) :=
      parseVal_str g cs t _ h
    rw [parseElems_some (g + 1) cs _ _ hv,
      parseElemsStep_comma _ _ _ _ (dropWs_cons_not_ws _ _ (by rfl)),
      ih (g + 1) t2 tail _ (by simp at hf ⊢; omega)
        (by rw [dropWs_nl_indent, dropWs_cons_not_ws _ _ (by rfl)])]
    rfl

theorem renderTags_nil_shape (tail : List Char) :
    renderTags [] ++ tail = '[' :: (']' :: tail) := by
  rw [renderTags]
  rfl

theorem renderTags_cons_shape (t : List Char) (ts : List (List Char)) (tail : List Char) :
    renderTags (t :: ts) ++ tail
      = '[' :: ('\n' :: (indentChars 2
          ++ ('"' :: (escString t ++ '"' :: (renderTagsTail ts ++ tail))))) := by
  rw [renderTags]
  simp [renderStr, List.append_assoc]

theorem parseVal_renderTags (ts : List (List Char)) (f : Nat) (cs tail : List Char)
    (hf : ts.length + 2 < f)
    (h : dropWs cs = renderTags ts ++ tail) :
    parseVal f cs = some (.arr (ts.map .str), tail) := by
  obtain ⟨g, rfl⟩ : ∃ g, f = g + 1 := ⟨f - 1, by omega⟩
  cases ts with
  | nil =>
    rw [renderTags_nil_shape] at h
    rw [parseVal_cons g cs '[' _ h, parseValStep_bracket,
      dropWs_cons_not_ws _ _ (by rfl)]
    show (if (']' : Char) = ']' then some (JsonValue.arr [], tail)
      else
        match parseElems g (']' :: tail) with
        | some er => some (JsonValue.arr er.1, er.2)
        | none => none) = _
    rw [if_pos rfl]
    rfl
  | cons t ts2 =>
    rw [renderTags_cons_shape] at h
    rw [parseVal_cons g cs '[' _ h, parseValStep_bracket,
      dropWs_nl_indent, dropWs_cons_not_ws _ _ (by rfl)]
    show (if ('"' : Char) = ']' then
        some (JsonValue.arr [], escString t ++ '"' :: (renderTagsTail ts2 ++ tail))
      else
        match parseElems g ('\n' :: (indentChars 2
            ++ ('"' :: (escString t ++ '"' :: (renderTagsTail ts2 ++ tail))))) with
        | some er => some (JsonValue.arr er.1, er.2)
        | none => none) = _
    rw [if_neg (by decide),
      parseElems_strings ts2 g t tail _ (by simp at hf ⊢; omega)
        (by rw [dropWs_nl_indent, dropWs_cons_not_ws _ _ (by rfl)])]
    rfl

theorem dropWs_renderTags (ts : List (List Char)) (X : List Char) :
    dropWs (renderTags ts ++ X) = renderTags ts ++ X := by
  cases ts with
  | nil => rw [renderTags_nil_shape, dropWs_cons_not_ws _ _ (by rfl)]
  | cons t ts2 => rw [renderTags_cons_shape, dropWs_cons_not_ws _ _ (by rfl)]

theorem dropWs_intChars (n : Int) (X : List Char) :
    dropWs (intChars n ++ X) = intChars n ++ X := by
  by_cases hn : n < 0
  · rw [intChars, if_pos hn, List.cons_append, dropWs_cons_not_ws _ _ (by rfl)]
  · obtain ⟨d, ds, hm⟩ : ∃ d ds, natChars n.natAbs = d :: ds := by
      cases hm : natChars n.natAbs with
      | nil => exact absurd hm (natChars_ne_nil _)
      | cons d ds => exact ⟨d, ds, rfl⟩
    have hd : d.isDigit = true :=
      natChars_digits _ d (by rw [hm]; exact List.mem_cons_self d ds)
    rw [intChars, if_neg hn, hm, List.cons_append,
      dropWs_cons_not_ws _ _ (isWsChar_of_digit d hd)]

theorem parseValStep_brace_nonempty (pe : List Char → Option (List JsonValue × List Char))
    (pm : List Char → Option (List (List Char × JsonValue) × List Char))
    (r r2 : List Char) (c : Char) (h : dropWs r = c :: r2) (hc : c ≠ '}')
    (ms : List (List Char × JsonValue)) (tail : List Char)
    (hm : pm r = some (ms, tail)) :
    parseValStep pe pm '{' r = some (.obj ms, tail) := by
  rw [parseValStep_brace, h]
  show (if c = '}' then some (JsonValue.obj [], r2)
    else
      match pm r with
      | some mr => some (JsonValue.obj mr.1, mr.2)
      | none => none) = _
  rw [if_neg hc, hm]

theorem parseMembers_point_tags (p : Point) (g : Nat) (cs : List Char)
    (hg : p.tags.length + 2 < g)
    (h : dropWs cs = '"' :: restTags p) :
    parseMembers (g + 1) cs
      = some ([(['t', 'a', 'g', 's'], .arr (p.tags.map .str))], []) := by
  have hkey : strBody (restTags p)
      = some (['t', 'a', 'g', 's'], ':' :: ' ' :: valTags p) := rfl
  have h2 : dropWs (':' :: ' ' :: valTags p) = ':' :: (' ' :: valTags p) := rfl
  have hv : parseVal g (' ' :: valTags p)
      = some (.arr (p.tags.map .str), '\n' :: ['}']) :=
    parseVal_renderTags p.tags g _ ('\n' :: ['}']) hg
      (by rw [dropWs_cons_ws ' ' _ rfl, valTags, dropWs_renderTags])
  have hcl : dropWs ('\n' :: ['}']) = '}' :: ([] : List Char) := rfl
  rw [parseMembers_key g cs _ _ _ h hkey,
    parseMembersStep_value _ _ _ _ _ _ _ h2 hv,
    parseMemberRest_close _ _ _ _ _ hcl]

theorem parseMembers_point_label (p : Point) (g : Nat) (cs : List Char)
    (hg : p.tags.length + 2 < g)
    (h : dropWs cs = '"' :: restLabel p) :
    parseMembers (g + 2) cs
      = some ([(['l', 'a', 'b', 'e', 'l'], .str p.label),
        (['t', 'a', 'g', 's'], .arr (p.tags.map .str))], []) := by
  have hkey : strBody (restLabel p)
      = some (['l', 'a', 'b', 'e', 'l'],
        ':' :: ' ' :: '"' :: (escString p.label ++ '"' :: afterLabel p)) := rfl
  have h2 : dropWs (':' :: ' ' :: '"' :: (escString p.label ++ '"' :: afterLabel p))
      = ':' :: (' ' :: '"' :: (escString p.label ++ '"' :: afterLabel p)) := rfl
  have hv : parseVal (g + 1) (' ' :: '"' :: (escString p.label ++ '"' :: afterLabel p))
      = some (.str p.label, afterLabel p) :=
    parseVal_str g _ p.label _
      (by rw [dropWs_cons_ws ' ' _ rfl, dropWs_cons_not_ws '"' _ rfl])
  have h4 : dropWs (afterLabel p)
      = ',' :: ('\n' :: (indentChars 1 ++ '"' :: restTags p)) := rfl
  have hrest : parseMembers (g + 1) ('\n' :: (indentChars 1 ++ '"' :: restTags p))
      = some ([(['t', 'a', 'g', 's'], .arr (p.tags.map .str))], []) :=
    parseMembers_point_tags p g _ hg
      (by rw [dropWs_nl_indent, dropWs_cons_not_ws '"' _ rfl])
  rw [parseMembers_key (g + 1) cs _ _ _ h hkey,
    parseMembersStep_value _ _ _ _ _ _ _ h2 hv,
    parseMemberRest_comma _ _ _ _ _ h4, hrest]

theorem parseMembers_point_y (p : Point) (g : Nat) (cs : List Char)
    (hg : p.tags.length + 2 < g)
    (h : dropWs cs = '"' :: restY p) :
    parseMembers (g + 3) cs
      = some ([(['y'], .num p.y),
        (['l', 'a', 'b', 'e', 'l'], .str p.label),
        (['t', 'a', 'g', 's'], .arr (p.tags.map .str))], []) := by
  have hkey : strBody (restY p)
      = some (['y'], ':' :: ' ' :: (intChars p.y ++ afterY p)) := rfl
  have h2 : dropWs (':' :: ' ' :: (intChars p.y ++ afterY p))
      = ':' :: (' ' :: (intChars p.y ++ afterY p)) := rfl
  have hv : parseVal (g + 2) (' ' :: (intChars p.y ++ afterY p))
      = some (.num p.y, afterY p) :=
    parseVal_num (g + 1) _ _ p.y
      (by rw [dropWs_cons_ws ' ' _ rfl, dropWs_intChars]) rfl
  have h4 : dropWs (afterY p)
      = ',' :: ('\n' :: (indentChars 1 ++ '"' :: restLabel p)) := rfl
  have hrest : parseMembers (g + 2) ('\n' :: (indentChars 1 ++ '"' :: restLabel p))
      = some ([(['l', 'a', 'b', 'e', 'l'], .str p.label),
        (['t', 'a', 'g', 's'], .arr (p.tags.map .str))], []) :=
    parseMembers_point_label p g _ hg
      (by rw [dropWs_nl_indent, dropWs_cons_not_ws '"' _ rfl])
  rw [parseMembers_key (g + 2) cs _ _ _ h hkey,
    parseMembersStep_value _ _ _ _ _ _ _ h2 hv,
    parseMemberRest_comma _ _ _ _ _ h4, hrest]

theorem parseMembers_point_x (p : Point) (g : Nat) (cs : List Char)
    (hg : p.tags.length + 2 < g)
    (h : dropWs cs = '"' :: restX p) :
    parseMembers (g + 4) cs
      = some ([(['x'], .num p.x), (['y'], .num p.y),
        (['l', 'a', 'b', 'e', 'l'], .str p.label),
        (['t', 'a', 'g', 's'], .arr (p.tags.map .str))], []) := by
  have hkey : strBody (restX p)
      = some (['x'], ':' :: ' ' :: (intChars p.x ++ afterX p)) := rfl
  have h2 : dropWs (':' :: ' ' :: (intChars p.x ++ afterX p))
      = ':' :: (' ' :: (intChars p.x ++ afterX p)) := rfl
  have hv : parseVal (g + 3) (' ' :: (intChars p.x ++ afterX p))
      = some (.num p.x, afterX p) :=
    parseVal_num (g + 2) _ _ p.x
      (by rw [dropWs_cons_ws ' ' _ rfl, dropWs_intChars]) rfl
  have h4 : dropWs (afterX p)
      = ',' :: ('\n' :: (indentChars 1 ++ '"' :: restY p)) := rfl
  have hrest : parseMembers (g + 3) ('\n' :: (indentChars 1 ++ '"' :: restY p))
      = some ([(['y'], .num p.y),
        (['l', 'a', 'b', 'e', 'l'], .str p.label),
        (['t', 'a', 'g', 's'], .arr (p.tags.map .str))], []) :=
    parseMembers_point_y p g _ hg
      (by rw [dropWs_nl_indent, dropWs_cons_not_ws '"' _ rfl])
  rw [parseMembers_key (g + 3) cs _ _ _ h hkey,
    parseMembersStep_value _ _ _ _ _ _ _ h2 hv,
    parseMemberRest_comma _ _ _ _ _ h4, hrest]

theorem render_point_shape (p : Point) :
    render_point p = '{' :: '\n' :: (indentChars 1 ++ '"' :: restX p) := by
  rw [render_point, restX, afterX, restY, afterY, restLabel, afterLabel, restTags,
    valTags, renderStr]
  simp [List.append_assoc]

theorem parseVal_render_point (p : Point) (f : Nat) (hf : p.tags.length + 8 ≤ f) :
    parseVal f (render_point p) = some (json_of_point p, []) := by
  obtain ⟨g, rfl⟩ : ∃ g, f = g + 5 := ⟨f - 5, by omega⟩
  have hg : p.tags.length + 2 < g := by omega
  have hdrop : dropWs (render_point p)
      = '{' :: ('\n' :: (indentChars 1 ++ '"' :: restX p)) := by
    rw [render_point_shape, dropWs_cons_not_ws '{' _ rfl]
  have hdropR : dropWs ('\n' :: (indentChars 1 ++ '"' :: restX p))
      = '"' :: restX p := by
    rw [dropWs_nl_indent, dropWs_cons_not_ws '"' _ rfl]
  have hm : parseMembers (g + 4) ('\n' :: (indentChars 1 ++ '"' :: restX p))
      = some ([(['x'], .num p.x), (['y'], .num p.y),
        (['l', 'a', 'b', 'e', 'l'], .str p.label),
        (['t', 'a', 'g', 's'], .arr (p.tags.map .str))], []) :=
    parseMembers_point_x p g _ hg hdropR
  rw [parseVal_cons (g + 4) _ '{' _ hdrop,
    parseValStep_brace_nonempty _ _ _ _ '"' hdropR (by decide) _ [] hm]
  rfl

theorem renderTagsTail_length (ts : List (List Char)) :
    ts.length ≤ (renderTagsTail ts).length := by
  induction ts with
  | nil => simp [renderTagsTail]
  | cons t ts ih =>
    rw [renderTagsTail]
    simp only [List.length_cons, List.length_append]
    omega

theorem renderTags_length (ts : List (List Char)) :
    ts.length ≤ (renderTags ts).length := by
  cases ts with
  | nil => simp [renderTags]
  | cons t ts2 =>
    have h := renderTagsTail_length ts2
    rw [renderTags]
    simp only [List.length_cons, List.length_append]
    omega

theorem render_point_length (p : Point) :
    p.tags.length + 7 ≤ (render_point p).length := by
  have h1 := renderTags_length p.tags
  rw [render_point_shape, restX, afterX, restY, afterY, restLabel, afterLabel,
    restTags, valTags]
  simp only [List.length_cons, List.length_append, indentChars, List.length_replicate]
  omega

theorem render_point_from_str (p : Point) :
    json_from_str (render_point p) = some (json_of_point p) := by
  rw [json_from_str,
    parseVal_render_point p _ (by have h := render_point_length p; omega)]
  rfl

theorem strListOfJson_map (ts : List (List Char)) :
    strListOfJson (ts.map .str) = some ts := by
  induction ts with
  | nil => rfl
  | cons t ts ih => simp [strListOfJson, ih]

theorem point_from_json_of_point (p : Point)
    (hx1 : -2147483648 ≤ p.x) (hx2 : p.x ≤ 2147483647)
    (hy1 : -2147483648 ≤ p.y) (hy2 : p.y ≤ 2147483647) :
    point_from_json (json_of_point p) = some p := by
  simp [json_of_point, point_from_json, memberLookup, i32OfJson, strOfJson,
    tagsOfJson, strListOfJson_map, hx1, hx2, hy1, hy2]

/-- C2: the JSON round trip preserves structural equality.  For every value
`p` of the `Point` struct (its `i32` fields carry the `i32` range),
`serialize_struct_to_json_string` returns `Ok(s)` for some string `s`, and
`deserialize_json_string_to_struct(s)` returns `Ok(q)` with `q` equal to
`p`. -/
theorem point_json_roundtrip (p : Point)
    (hx1 : -2147483648 ≤ p.x) (hx2 : p.x ≤ 2147483647)
    (hy1 : -2147483648 ≤ p.y) (hy2 : p.y ≤ 2147483647) :
    ∃ s, serialize_struct_to_json_string p = .ok s
      ∧ deserialize_json_string_to_struct s = .ok p := by
  refine ⟨render_point p, rfl, ?_⟩
  rw [deserialize_json_string_to_struct, render_point_from_str]
  show (match point_from_json (json_of_point p) with
    | some q => Except.ok q
    | none => Except.error JsonError.badShape) = _
  rw [point_from_json_of_point p hx1 hx2 hy1 hy2]

/-- Witness for C2 at the example `Point` of `json_serialization.rs`. -/
theorem point_json_roundtrip_witness :
    ∃ s, serialize_struct_to_json_string
        ⟨10, 20, ['O', 'r', 'i', 'g', 'i', 'n'],
          [['s', 't', 'a', 'r', 't'], ['c', 'e', 'n', 't', 'e', 'r']]⟩ = .ok s
      ∧ deserialize_json_string_to_struct s = .ok
        ⟨10, 20, ['O', 'r', 'i', 'g', 'i', 'n'],
          [['s', 't', 'a', 'r', 't'], ['c', 'e', 'n', 't', 'e', 'r']]⟩ :=
  point_json_roundtrip _ (by norm_num) (by norm_num) (by norm_num) (by norm_num)
